import Mathlib

/-!
Verification of the ECS (entity/component storage) core of this repository.

The embedding follows `src/ecs/world.rs`, `src/ecs/component_storage.rs` and
`src/ecs/error.rs`:

* `EntityId` wraps a `usize`; we model it as `Nat` (the counter wraps at
  `2 ^ 64`, modelled explicitly).
* Rust's `HashMap<K, V>` is modelled by an association list (`alGet` /
  `alInsert` / `alRemove` / `alUpdate` give exactly the `get` / `insert` /
  `remove` / `get_mut`-then-assign semantics); `HashSet` by a duplicate-free
  list.
* The heterogeneous map `HashMap<TypeId, Box<dyn Any>>` is modelled by tagging
  every stored bucket with the `TypeId` of the concrete component type it was
  created for (`StoredBucket.stored_type`); `downcast_ref::<ComponentsStorage<C>>`
  succeeds exactly when that tag equals the requested type key.
* Since the buckets live in one heterogeneous container, component data of all
  types is drawn from a single carrier `Val`.
* A Rust panic (`.expect(..)` on `Vec::pop`, or an out-of-bounds index) is
  modelled by `Option`: `none` is an abort, `some` a normal return (either
  `Except.ok` or one of the four `Error` values).
-/

abbrev Val := Nat

abbrev EntityId := Nat

/-- Models `std::any::TypeId`: an opaque injective key per component type. -/
abbrev TypeKey := Nat

/-- Models `std::any::type_name::<C>()`; injective on type keys. -/
def type_name (c : TypeKey) : String := "C" ++ toString c

/-- `HashMap::get` on an association list. -/
def alGet {α : Type} : List (Nat × α) → Nat → Option α
  | [], _ => none
  | (k, v) :: t, k2 => if k = k2 then some v else alGet t k2

/-- `HashMap::insert` on an association list: replaces the binding if the key
is present, otherwise adds it. -/
def alInsert {α : Type} : List (Nat × α) → Nat → α → List (Nat × α)
  | [], k, v => [(k, v)]
  | (k2, v2) :: t, k, v =>
      if k2 = k then (k, v) :: t else (k2, v2) :: alInsert t k v

/-- `HashMap::remove` on an association list (first binding of the key). -/
def alRemove {α : Type} : List (Nat × α) → Nat → List (Nat × α)
  | [], _ => []
  | (k2, v2) :: t, k => if k2 = k then t else (k2, v2) :: alRemove t k

/-- `HashMap::get_mut` followed by an assignment: updates the value at the key
when present, does nothing otherwise. -/
def alUpdate {α : Type} : List (Nat × α) → Nat → α → List (Nat × α)
  | [], _, _ => []
  | (k2, v2) :: t, k, v =>
      if k2 = k then (k2, v) :: t else (k2, v2) :: alUpdate t k v

/-- The keys of an association list. -/
def alKeys {α : Type} (l : List (Nat × α)) : List Nat := l.map Prod.fst

/-- Well-formedness of the association lists that model `HashMap`: one binding
per key. Every map in the development starts empty and is touched only through
`alInsert` / `alRemove` / `alUpdate`, which preserve this. -/
def keysNodup {α : Type} (l : List (Nat × α)) : Prop := (alKeys l).Nodup

/-- `HashSet::contains`. -/
def setContains (l : List Nat) (k : Nat) : Bool := l.contains k

/-- `HashSet::insert`. -/
def setInsert (l : List Nat) (k : Nat) : List Nat :=
  if l.contains k then l else k :: l

/-- `ComponentsStorage<C>` from `src/ecs/component_storage.rs`: the dense
vector of `(EntityId, C)` pairs and the entity-to-index map. -/
structure ComponentsStorage where
  component_vec : List (EntityId × Val)
  entity_component_map : List (EntityId × Nat)
deriving Repr, DecidableEq

def ComponentsStorage.new : ComponentsStorage :=
  { component_vec := [], entity_component_map := [] }

/-- One `Box<dyn Any>` value in the World's bucket map: the concrete
`ComponentsStorage<C>` together with the `TypeId` of the `C` it was built
for (this is what `downcast_ref` checks at runtime). -/
structure StoredBucket where
  stored_type : TypeKey
  storage : ComponentsStorage
deriving Repr, DecidableEq

/-- The `Error` enum as constructed throughout `src/ecs/world.rs` and matched
by the `Display` impl in `src/ecs/error.rs` (both give `InvalidEntityComponent`
two fields; the enum declaration itself gives it only one — see the claim about
error payloads). -/
inductive Error where
  | InvalidEntityId (entity_id : EntityId)
  | InvalidWorldComponent (name : String)
  | InvalidEntityComponent (name : String) (entity_id : EntityId)
  | ComponentAlreadyAdded (name : String) (entity_id : EntityId)
deriving Repr, DecidableEq

/-- Number of payload fields of `InvalidEntityComponent` in the `enum Error`
declaration, `src/ecs/error.rs` line 7: `InvalidEntityComponent(&'static str)`. -/
def invalidEntityComponentFieldsDeclared : Nat := 1

/-- Number of payload fields of `InvalidEntityComponent` at every use site:
the `Display` arm (`error.rs` line 22) and the constructors in `world.rs`
lines 48, 69 and 122 all pass `(name, entity_id)`. -/
def invalidEntityComponentFieldsUsed : Nat := 2

/-- The `Display` impl of `Error` (`src/ecs/error.rs`, lines 11-34),
rendered to a `String`. -/
def Error.display : Error → String
  | .InvalidEntityId entity_id => "Entity " ++ toString entity_id ++ " is invalid"
  | .InvalidWorldComponent name =>
      "Component " ++ name ++ " was never registered to any entity in the world"
  | .InvalidEntityComponent name entity_id =>
      "Component " ++ name ++ " was never registered to the entity " ++ toString entity_id
  | .ComponentAlreadyAdded name entity_id =>
      "Component " ++ name ++ " was already added to entity " ++ toString entity_id

/-- `World` from `src/ecs/world.rs`. -/
structure World where
  component_storage_vecs : List (TypeKey × StoredBucket)
  entity_validity_set : List EntityId
  entity_counter : Nat
deriving Repr, DecidableEq

/-- `World::new`. -/
def World.new : World :=
  { component_storage_vecs := [], entity_validity_set := [], entity_counter := 0 }

/-- `World::create_entity`: `fetch_add` returns the old counter (the new id),
the counter wraps at the `usize` width, and the id is recorded valid. -/
def create_entity (w : World) : EntityId × World :=
  let entity_id := w.entity_counter
  (entity_id,
    { w with
      entity_counter := (w.entity_counter + 1) % 2 ^ 64
      entity_validity_set := setInsert w.entity_validity_set entity_id })

/-- `World::is_entity_valid`. -/
def is_entity_valid (w : World) (id : EntityId) : Bool :=
  setContains w.entity_validity_set id

/-- `World::get_component_storage::<C>`: map lookup on `TypeId::of::<C>()`
followed by `downcast_ref::<ComponentsStorage<C>>` — the downcast succeeds
exactly when the stored bucket was created for this very type. -/
def get_component_storage (w : World) (c : TypeKey) : Option ComponentsStorage :=
  (alGet w.component_storage_vecs c).bind
    (fun sb => if sb.stored_type = c then some sb.storage else none)

/-- Writing back through the `&mut ComponentsStorage<C>` returned by
`get_component_storage_mut`: replaces the bucket stored at key `c`. -/
def set_component_storage (w : World) (c : TypeKey) (s : ComponentsStorage) : World :=
  { w with component_storage_vecs := alUpdate w.component_storage_vecs c ⟨c, s⟩ }

/-- `World::ensure_component_registered::<C>`: returns `true` if the bucket
already existed, otherwise inserts a fresh `ComponentsStorage::<C>` (tagged
with `C`'s type key) and returns `false`. -/
def ensure_component_registered (w : World) (c : TypeKey) : Bool × World :=
  if (alGet w.component_storage_vecs c).isSome then (true, w)
  else
    (false,
      { w with
        component_storage_vecs :=
          alInsert w.component_storage_vecs c ⟨c, ComponentsStorage.new⟩ })

/-- `World::get_entity_component::<C>` (`world.rs` lines 36-51). `none` models
the panic of the index expression `component_vec[component_index]` when the
stored index is out of bounds. -/
def get_entity_component (w : World) (c : TypeKey) (entity_id : EntityId) :
    Option (Except Error Val) :=
  if is_entity_valid w entity_id = false then
    some (.error (.InvalidEntityId entity_id))
  else
    match get_component_storage w c with
    | none => some (.error (.InvalidWorldComponent (type_name c)))
    | some component_storage =>
      match alGet component_storage.entity_component_map entity_id with
      | none => some (.error (.InvalidEntityComponent (type_name c) entity_id))
      | some component_index =>
        match component_storage.component_vec.get? component_index with
        | none => none
        | some q => some (.ok q.2)

/-- `World::get_entity_component_mut::<C>` (`world.rs` lines 53-71): same
lookups as `get_entity_component`; the method body performs no writes, so the
returned `World` is the input. The `Val` returned is the value the `&mut C`
reference points to. -/
def get_entity_component_mut (w : World) (c : TypeKey) (entity_id : EntityId) :
    Option (Except Error Val × World) :=
  if is_entity_valid w entity_id = false then
    some (.error (.InvalidEntityId entity_id), w)
  else
    match get_component_storage w c with
    | none => some (.error (.InvalidWorldComponent (type_name c)), w)
    | some component_storage =>
      match alGet component_storage.entity_component_map entity_id with
      | none => some (.error (.InvalidEntityComponent (type_name c) entity_id), w)
      | some component_index =>
        match component_storage.component_vec.get? component_index with
        | none => none
        | some q => some (.ok q.2, w)

/-- `World::add_entity_component::<C>` (`world.rs` lines 73-108): validity
check, `ensure_component_registered`, duplicate check, then push to the dense
vector and record the index. -/
def add_entity_component (w : World) (c : TypeKey) (entity_id : EntityId)
    (component_data : Val) : Except Error Unit × World :=
  if is_entity_valid w entity_id = false then
    (.error (.InvalidEntityId entity_id), w)
  else
    match get_component_storage (ensure_component_registered w c).2 c with
    | none =>
        (.error (.InvalidWorldComponent (type_name c)), (ensure_component_registered w c).2)
    | some component_storage =>
      if (alGet component_storage.entity_component_map entity_id).isSome then
        (.error (.ComponentAlreadyAdded (type_name c) entity_id),
          (ensure_component_registered w c).2)
      else
        (.ok (), set_component_storage (ensure_component_registered w c).2 c
          { component_vec := component_storage.component_vec ++ [(entity_id, component_data)]
            entity_component_map :=
              alInsert component_storage.entity_component_map entity_id
                component_storage.component_vec.length })

/-- The bucket-level part of `World::remove_entity_component::<C>`
(`world.rs` lines 124-153), after the entity's index `idx` has been found:
pop the last dense entry (`none` models the `.expect` panic on an empty
vector); if the popped entry sat at `idx` it is the value to return, otherwise
remove the entity from the map, redirect the popped entity's index to `idx`,
swap the popped entry into slot `idx` (`none` models the panic of
`component_vec[idx]` out of bounds) and return the displaced value; finally
remove the entity from the map (again). -/
def remove_from_storage (cs : ComponentsStorage) (entity_id : EntityId) (idx : Nat) :
    Option (Val × ComponentsStorage) :=
  match cs.component_vec.getLast? with
  | none => none
  | some popped_component =>
    if idx = cs.component_vec.dropLast.length then
      some (popped_component.2,
        { component_vec := cs.component_vec.dropLast
          entity_component_map := alRemove cs.entity_component_map entity_id })
    else
      match cs.component_vec.dropLast.get? idx with
      | none => none
      | some old =>
        some (old.2,
          { component_vec := cs.component_vec.dropLast.set idx popped_component
            entity_component_map :=
              alRemove
                (alUpdate (alRemove cs.entity_component_map entity_id)
                  popped_component.1 idx)
                entity_id })

/-- `World::remove_entity_component::<C>` (`world.rs` lines 110-155). -/
def remove_entity_component (w : World) (c : TypeKey) (entity_id : EntityId) :
    Option (Except Error Val × World) :=
  if is_entity_valid w entity_id = false then
    some (.error (.InvalidEntityId entity_id), w)
  else
    match get_component_storage w c with
    | none => some (.error (.InvalidWorldComponent (type_name c)), w)
    | some component_storage =>
      match alGet component_storage.entity_component_map entity_id with
      | none => some (.error (.InvalidEntityComponent (type_name c) entity_id), w)
      | some entity_component_index =>
        match remove_from_storage component_storage entity_id entity_component_index with
        | none => none
        | some (v, cs2) => some (.ok v, set_component_storage w c cs2)

/-! ### Invariants (spec section 3: I1, I2, I3) and reachability -/

/-- The sparse-set invariant of one bucket.

* the index map has one binding per entity (half of I2/I3);
* I1: every `(id, pos)` binding points into the dense vector, at an entry
  owned by `id`;
* I2: every dense entry's owner is mapped back to that very slot (with the
  first clause this also gives I3: an entity occupies at most one slot). -/
def StorageInv (cs : ComponentsStorage) : Prop :=
  keysNodup cs.entity_component_map
  ∧ (∀ p ∈ cs.entity_component_map,
      (cs.component_vec.get? p.2).map Prod.fst = some p.1)
  ∧ (∀ i, i < cs.component_vec.length →
      (cs.component_vec.get? i).bind (fun q => alGet cs.entity_component_map q.1) = some i)

instance (cs : ComponentsStorage) : Decidable (StorageInv cs) := by
  unfold StorageInv keysNodup
  exact inferInstance

/-- The World-level invariant: the bucket map has one bucket per type key, and
every stored bucket is tagged with the key it sits under (so the `downcast`
succeeds) and satisfies the sparse-set invariant. -/
def WorldInv (w : World) : Prop :=
  keysNodup w.component_storage_vecs
  ∧ ∀ p ∈ w.component_storage_vecs, p.2.stored_type = p.1 ∧ StorageInv p.2.storage

instance (w : World) : Decidable (WorldInv w) := by
  unfold WorldInv keysNodup
  exact inferInstance

/-- World states reachable from `World::new` through the public operations.
`get_entity_component` takes `&self` and is stateless; `get_entity_component_mut`
and `remove_entity_component` yield a state only when they do not panic. -/
inductive Reachable : World → Prop where
  | new : Reachable World.new
  | create (w : World) : Reachable w → Reachable (create_entity w).2
  | ensure (w : World) (c : TypeKey) :
      Reachable w → Reachable (ensure_component_registered w c).2
  | add (w : World) (c : TypeKey) (e : EntityId) (v : Val) :
      Reachable w → Reachable (add_entity_component w c e v).2
  | getMut (w : World) (c : TypeKey) (e : EntityId) (r : Except Error Val) (w2 : World) :
      Reachable w → get_entity_component_mut w c e = some (r, w2) → Reachable w2
  | remove (w : World) (c : TypeKey) (e : EntityId) (r : Except Error Val) (w2 : World) :
      Reachable w → remove_entity_component w c e = some (r, w2) → Reachable w2

/-- The one observation claims are phrased through: the component value the
bucket currently associates with an entity (index-map lookup followed by the
dense-vector read). -/
def storedVal (cs : ComponentsStorage) (e : EntityId) : Option Val :=
  (alGet cs.entity_component_map e).bind
    (fun i => (cs.component_vec.get? i).map Prod.snd)

instance {ε α : Type} [DecidableEq ε] [DecidableEq α] : DecidableEq (Except ε α) :=
  fun x y =>
    match x, y with
    | Except.error a, Except.error b =>
        if h : a = b then isTrue (congrArg Except.error h)
        else isFalse (fun hh => h (Except.error.inj hh))
    | Except.ok a, Except.ok b =>
        if h : a = b then isTrue (congrArg Except.ok h)
        else isFalse (fun hh => h (Except.ok.inj hh))
    | Except.error _, Except.ok _ => isFalse (fun hh => Except.noConfusion hh)
    | Except.ok _, Except.error _ => isFalse (fun hh => Except.noConfusion hh)

/-! ### Concrete worlds used to exercise the theorems -/

/-- One entity (id 0). -/
def wldA : World := (create_entity World.new).2

/-- Two entities (ids 0 and 1). -/
def wldAB : World := (create_entity wldA).2

/-- Two entities; entity 0 carries component type 0 with value 5. -/
def wldAdd0 : World := (add_entity_component wldAB 0 0 5).2

/-- Two entities; entity 0 carries value 5 and entity 1 value 7 in bucket 0. -/
def wldAdd01 : World := (add_entity_component wldAdd0 0 1 7).2

/-- The world after swap-removing entity 0 from bucket 0 of `wldAdd01`
(entity 0 was not last in the dense vector, so this is the relocation case). -/
def wldRem : World :=
  match remove_entity_component wldAdd01 0 0 with
  | some (_, w2) => w2
  | none => World.new

/-! ### Association-list lemmas (semantics of the modelled `HashMap`) -/

theorem alKeys_cons {α : Type} (k : Nat) (v : α) (t : List (Nat × α)) :
    alKeys ((k, v) :: t) = k :: alKeys t := rfl

theorem alGet_alInsert_self {α : Type} (l : List (Nat × α)) (k : Nat) (v : α) :
    alGet (alInsert l k v) k = some v := by
  induction l with
  | nil => simp [alInsert, alGet]
  | cons p t ih =>
    obtain ⟨k2, v2⟩ := p
    by_cases h : k2 = k
    · simp [alInsert, h, alGet]
    · simp [alInsert, h, alGet, ih]

theorem alGet_alInsert_ne {α : Type} (l : List (Nat × α)) (k k2 : Nat) (v : α)
    (h : k2 ≠ k) : alGet (alInsert l k v) k2 = alGet l k2 := by
  have h5 : k ≠ k2 := Ne.symm h
  induction l with
  | nil => simp [alInsert, alGet, h5]
  | cons p t ih =>
    obtain ⟨k3, v3⟩ := p
    by_cases h3 : k3 = k
    · subst h3
      simp [alInsert, alGet, h5]
    · simp only [alInsert, h3, if_false, alGet]
      by_cases h4 : k3 = k2 <;> simp [h4, ih]

theorem mem_alInsert {α : Type} (l : List (Nat × α)) (k : Nat) (v : α) (p : Nat × α)
    (hp : p ∈ alInsert l k v) : p ∈ l ∨ p = (k, v) := by
  induction l with
  | nil => simpa [alInsert] using hp
  | cons q t ih =>
    obtain ⟨k2, v2⟩ := q
    by_cases h : k2 = k
    · simp only [alInsert, h, if_true] at hp
      rcases List.mem_cons.mp hp with h1 | h1
      · exact Or.inr h1
      · exact Or.inl (List.mem_cons_of_mem _ h1)
    · simp only [alInsert, h, if_false] at hp
      rcases List.mem_cons.mp hp with h1 | h1
      · exact Or.inl (h1 ▸ List.mem_cons_self _ _)
      · rcases ih h1 with h2 | h2
        · exact Or.inl (List.mem_cons_of_mem _ h2)
        · exact Or.inr h2

theorem alKeys_alInsert_of_mem {α : Type} (l : List (Nat × α)) (k : Nat) (v : α)
    (h : k ∈ alKeys l) : alKeys (alInsert l k v) = alKeys l := by
  induction l with
  | nil => simp [alKeys] at h
  | cons p t ih =>
    obtain ⟨k2, v2⟩ := p
    by_cases h2 : k2 = k
    · simp [alInsert, h2, alKeys_cons]
    · have hk : k ∈ alKeys t := by
        rcases List.mem_cons.mp (by simpa [alKeys_cons] using h) with h3 | h3
        · exact absurd h3.symm h2
        · exact h3
      simp only [alInsert, h2, if_false, alKeys_cons, ih hk]

theorem alKeys_alInsert_of_not_mem {α : Type} (l : List (Nat × α)) (k : Nat) (v : α)
    (h : k ∉ alKeys l) : alKeys (alInsert l k v) = alKeys l ++ [k] := by
  induction l with
  | nil => simp [alInsert, alKeys]
  | cons p t ih =>
    obtain ⟨k2, v2⟩ := p
    have h2 : k2 ≠ k := by
      intro hh
      exact h (by simp [alKeys_cons, hh])
    have ht : k ∉ alKeys t := fun hh => h (by simp [alKeys_cons, hh])
    simp only [alInsert, h2, if_false, alKeys_cons, ih ht, List.cons_append]

theorem keysNodup_alInsert {α : Type} (l : List (Nat × α)) (k : Nat) (v : α)
    (h : keysNodup l) : keysNodup (alInsert l k v) := by
  by_cases hk : k ∈ alKeys l
  · unfold keysNodup
    rw [alKeys_alInsert_of_mem l k v hk]
    exact h
  · unfold keysNodup
    rw [alKeys_alInsert_of_not_mem l k v hk]
    simpa [List.nodup_append] using ⟨h, hk⟩

theorem alKeys_alUpdate {α : Type} (l : List (Nat × α)) (k : Nat) (v : α) :
    alKeys (alUpdate l k v) = alKeys l := by
  induction l with
  | nil => simp [alUpdate]
  | cons p t ih =>
    obtain ⟨k2, v2⟩ := p
    by_cases h : k2 = k <;> simp only [alUpdate, h, if_true, if_false, alKeys_cons, ih]

theorem keysNodup_alUpdate {α : Type} (l : List (Nat × α)) (k : Nat) (v : α)
    (h : keysNodup l) : keysNodup (alUpdate l k v) := by
  unfold keysNodup
  rw [alKeys_alUpdate]
  exact h

theorem mem_alUpdate {α : Type} (l : List (Nat × α)) (k : Nat) (v : α) (p : Nat × α)
    (hp : p ∈ alUpdate l k v) : p ∈ l ∨ p = (k, v) := by
  induction l with
  | nil => simp [alUpdate] at hp
  | cons q t ih =>
    obtain ⟨k2, v2⟩ := q
    by_cases h : k2 = k
    · simp only [alUpdate, h, if_true] at hp
      rcases List.mem_cons.mp hp with h1 | h1
      · exact Or.inr (by simp [h1, h])
      · exact Or.inl (List.mem_cons_of_mem _ h1)
    · simp only [alUpdate, h, if_false] at hp
      rcases List.mem_cons.mp hp with h1 | h1
      · exact Or.inl (h1 ▸ List.mem_cons_self _ _)
      · rcases ih h1 with h2 | h2
        · exact Or.inl (List.mem_cons_of_mem _ h2)
        · exact Or.inr h2

theorem alGet_alUpdate_self {α : Type} (l : List (Nat × α)) (k : Nat) (v : α) :
    alGet (alUpdate l k v) k = (alGet l k).map (fun _ => v) := by
  induction l with
  | nil => simp [alUpdate, alGet]
  | cons p t ih =>
    obtain ⟨k2, v2⟩ := p
    by_cases h : k2 = k <;> simp [alUpdate, h, alGet, ih]

theorem alGet_alUpdate_ne {α : Type} (l : List (Nat × α)) (k k2 : Nat) (v : α)
    (h : k2 ≠ k) : alGet (alUpdate l k v) k2 = alGet l k2 := by
  have h5 : k ≠ k2 := Ne.symm h
  induction l with
  | nil => simp [alUpdate]
  | cons p t ih =>
    obtain ⟨k3, v3⟩ := p
    by_cases h3 : k3 = k
    · subst h3
      simp [alUpdate, alGet, h5]
    · simp only [alUpdate, h3, if_false, alGet]
      by_cases h4 : k3 = k2 <;> simp [h4, ih]

theorem alRemove_sublist {α : Type} (l : List (Nat × α)) (k : Nat) :
    (alRemove l k).Sublist l := by
  induction l with
  | nil => simp [alRemove]
  | cons p t ih =>
    obtain ⟨k2, v2⟩ := p
    by_cases h : k2 = k
    · simp only [alRemove, h, if_true]
      exact List.sublist_cons_self _ t
    · simp only [alRemove, h, if_false]
      exact ih.cons₂ (k2, v2)

theorem mem_alRemove {α : Type} (l : List (Nat × α)) (k : Nat) (p : Nat × α)
    (hp : p ∈ alRemove l k) : p ∈ l :=
  (alRemove_sublist l k).subset hp

theorem keysNodup_alRemove {α : Type} (l : List (Nat × α)) (k : Nat)
    (h : keysNodup l) : keysNodup (alRemove l k) :=
  (List.Sublist.map Prod.fst (alRemove_sublist l k)).nodup h

theorem alGet_eq_none_iff {α : Type} (l : List (Nat × α)) (k : Nat) :
    alGet l k = none ↔ k ∉ alKeys l := by
  induction l with
  | nil => simp [alGet, alKeys]
  | cons p t ih =>
    obtain ⟨k2, v2⟩ := p
    by_cases h : k2 = k
    · subst h
      simp [alGet, alKeys_cons]
    · have h5 : k ≠ k2 := Ne.symm h
      simp [alGet, h, alKeys_cons, ih, h5]

theorem alGet_alRemove_self {α : Type} (l : List (Nat × α)) (k : Nat)
    (h : keysNodup l) : alGet (alRemove l k) k = none := by
  induction l with
  | nil => simp [alRemove, alGet]
  | cons p t ih =>
    obtain ⟨k2, v2⟩ := p
    have hpair : keysNodup t ∧ k2 ∉ alKeys t := by
      constructor
      · exact (List.nodup_cons.mp h).2
      · simpa [alKeys] using (List.nodup_cons.mp h).1
    by_cases h2 : k2 = k
    · subst h2
      simp only [alRemove, if_pos rfl]
      exact (alGet_eq_none_iff t k2).mpr hpair.2
    · simp only [alRemove, h2, if_false, alGet, if_neg h2]
      exact ih hpair.1

theorem alGet_alRemove_ne {α : Type} (l : List (Nat × α)) (k k2 : Nat)
    (h : k2 ≠ k) : alGet (alRemove l k) k2 = alGet l k2 := by
  have h5 : k ≠ k2 := Ne.symm h
  induction l with
  | nil => simp [alRemove]
  | cons p t ih =>
    obtain ⟨k3, v3⟩ := p
    by_cases h3 : k3 = k
    · subst h3
      simp [alRemove, alGet, h5]
    · simp only [alRemove, h3, if_false, alGet]
      by_cases h4 : k3 = k2 <;> simp [h4, ih]

theorem mem_of_alGet {α : Type} (l : List (Nat × α)) (k : Nat) (v : α)
    (h : alGet l k = some v) : (k, v) ∈ l := by
  induction l with
  | nil => simp [alGet] at h
  | cons p t ih =>
    obtain ⟨k2, v2⟩ := p
    by_cases h2 : k2 = k
    · subst h2
      simp [alGet] at h
      subst h
      exact List.mem_cons_self _ _
    · simp only [alGet, h2, if_false] at h
      exact List.mem_cons_of_mem _ (ih h)

theorem alGet_of_mem_nodup {α : Type} (l : List (Nat × α)) (p : Nat × α)
    (hn : keysNodup l) (hp : p ∈ l) : alGet l p.1 = some p.2 := by
  induction l with
  | nil => simp at hp
  | cons q t ih =>
    obtain ⟨k2, v2⟩ := q
    rcases List.mem_cons.mp hp with h1 | h1
    · subst h1
      simp [alGet]
    · have h2 : k2 ≠ p.1 := by
        intro hh
        have hmem : k2 ∈ alKeys t := by
          subst hh
          exact List.mem_map_of_mem Prod.fst h1
        exact absurd hmem (by simpa [alKeys] using (List.nodup_cons.mp hn).1)
      simp only [alGet, h2, if_false]
      exact ih (List.nodup_cons.mp hn).2 h1

/-! ### Derived forms of the invariant -/

theorem storageInv_map_to_vec {cs : ComponentsStorage} (h : StorageInv cs)
    {e : EntityId} {idx : Nat} (hg : alGet cs.entity_component_map e = some idx) :
    ∃ d, cs.component_vec.get? idx = some (e, d) := by
  have hmem := mem_of_alGet _ _ _ hg
  have h1 := h.2.1 (e, idx) hmem
  match hv : cs.component_vec.get? idx with
  | none => rw [hv] at h1; simp at h1
  | some q =>
    obtain ⟨q1, q2⟩ := q
    rw [hv] at h1
    simp at h1
    subst h1
    exact ⟨q2, rfl⟩

theorem storageInv_vec_to_map {cs : ComponentsStorage} (h : StorageInv cs)
    {i : Nat} {q : EntityId × Val} (hq : cs.component_vec.get? i = some q) :
    alGet cs.entity_component_map q.1 = some i := by
  have hlt : i < cs.component_vec.length := by
    by_contra hge
    rw [List.get?_len_le (Nat.le_of_not_lt hge)] at hq
    exact Option.noConfusion hq
  have h2 := h.2.2 i hlt
  rw [hq] at h2
  simpa using h2

/-! ### Structural facts about the operations -/

theorem ensure_validity_eq (w : World) (c : TypeKey) :
    (ensure_component_registered w c).2.entity_validity_set = w.entity_validity_set := by
  unfold ensure_component_registered
  split <;> rfl

theorem ensure_counter_eq (w : World) (c : TypeKey) :
    (ensure_component_registered w c).2.entity_counter = w.entity_counter := by
  unfold ensure_component_registered
  split <;> rfl

theorem set_storage_validity_eq (w : World) (c : TypeKey) (s : ComponentsStorage) :
    (set_component_storage w c s).entity_validity_set = w.entity_validity_set := rfl

theorem is_entity_valid_ensure (w : World) (c : TypeKey) (e : EntityId) :
    is_entity_valid (ensure_component_registered w c).2 e = is_entity_valid w e := by
  unfold is_entity_valid
  rw [ensure_validity_eq]

theorem is_entity_valid_set_storage (w : World) (c : TypeKey) (s : ComponentsStorage)
    (e : EntityId) :
    is_entity_valid (set_component_storage w c s) e = is_entity_valid w e := rfl

theorem get_component_storage_eq_some {w : World} {c : TypeKey} {cs : ComponentsStorage} :
    get_component_storage w c = some cs ↔
      ∃ sb, alGet w.component_storage_vecs c = some sb
        ∧ sb.stored_type = c ∧ sb.storage = cs := by
  unfold get_component_storage
  constructor
  · intro h
    match hg : alGet w.component_storage_vecs c with
    | none => rw [hg] at h; exact Option.noConfusion h
    | some sb =>
      rw [hg] at h
      simp only [Option.some_bind] at h
      by_cases ht : sb.stored_type = c
      · rw [if_pos ht] at h
        exact ⟨sb, rfl, ht, Option.some.inj h⟩
      · rw [if_neg ht] at h
        exact Option.noConfusion h
  · rintro ⟨sb, hg, ht, hs⟩
    rw [hg]
    simp only [Option.some_bind]
    rw [if_pos ht, hs]

theorem get_component_storage_set_self {w : World} {c : TypeKey} {sb : StoredBucket}
    (h : alGet w.component_storage_vecs c = some sb) (s : ComponentsStorage) :
    get_component_storage (set_component_storage w c s) c = some s := by
  unfold get_component_storage set_component_storage
  simp [alGet_alUpdate_self, h]

theorem get_component_storage_set_ne {w : World} {c c2 : TypeKey} (s : ComponentsStorage)
    (h : c2 ≠ c) :
    get_component_storage (set_component_storage w c s) c2 = get_component_storage w c2 := by
  unfold get_component_storage set_component_storage
  rw [alGet_alUpdate_ne _ _ _ _ h]

theorem worldInv_storage {w : World} {c : TypeKey} {cs : ComponentsStorage}
    (hw : WorldInv w) (h : get_component_storage w c = some cs) : StorageInv cs := by
  obtain ⟨sb, hg, _, hs⟩ := get_component_storage_eq_some.mp h
  have := (hw.2 (c, sb) (mem_of_alGet _ _ _ hg)).2
  rwa [hs] at this

theorem worldInv_set_component_storage {w : World} {c : TypeKey} {s : ComponentsStorage}
    (hw : WorldInv w) (hs : StorageInv s) : WorldInv (set_component_storage w c s) := by
  constructor
  · exact keysNodup_alUpdate _ _ _ hw.1
  · intro p hp
    rcases mem_alUpdate _ _ _ _ hp with h1 | h1
    · exact hw.2 p h1
    · subst h1
      exact ⟨rfl, hs⟩

theorem storageInv_new : StorageInv ComponentsStorage.new := by
  refine ⟨?_, ?_, ?_⟩ <;> simp [ComponentsStorage.new, keysNodup, alKeys]

theorem worldInv_new : WorldInv World.new := by
  constructor
  · simp [World.new, keysNodup, alKeys]
  · intro p hp
    simp [World.new] at hp

theorem worldInv_create {w : World} (hw : WorldInv w) : WorldInv (create_entity w).2 := hw

theorem worldInv_ensure {w : World} (c : TypeKey) (hw : WorldInv w) :
    WorldInv (ensure_component_registered w c).2 := by
  unfold ensure_component_registered
  split
  · exact hw
  · constructor
    · exact keysNodup_alInsert _ _ _ hw.1
    · intro p hp
      rcases mem_alInsert _ _ _ _ hp with h1 | h1
      · exact hw.2 p h1
      · subst h1
        exact ⟨rfl, storageInv_new⟩

theorem get?_dropLast {α : Type} (l : List α) (i : Nat) (h : i < l.length - 1) :
    l.dropLast.get? i = l.get? i := by
  rw [List.dropLast_eq_take]
  exact List.get?_take h

/-! ### Shape lemmas: how each operation decomposes -/

theorem add_ok_elim {w : World} {c : TypeKey} {e : EntityId} {v : Val} {w2 : World}
    (h : add_entity_component w c e v = (Except.ok (), w2)) :
    is_entity_valid w e = true
    ∧ ∃ cs, get_component_storage (ensure_component_registered w c).2 c = some cs
      ∧ alGet cs.entity_component_map e = none
      ∧ w2 = set_component_storage (ensure_component_registered w c).2 c
          { component_vec := cs.component_vec ++ [(e, v)]
            entity_component_map :=
              alInsert cs.entity_component_map e cs.component_vec.length } := by
  unfold add_entity_component at h
  split at h
  · simp [Prod.ext_iff] at h
  · next hval =>
    refine ⟨by simpa using hval, ?_⟩
    split at h
    · simp [Prod.ext_iff] at h
    · next cs hcs =>
      split at h
      · simp [Prod.ext_iff] at h
      · next hdup =>
        simp only [Prod.mk.injEq] at h
        exact ⟨cs, hcs, Option.not_isSome_iff_eq_none.mp hdup, h.2.symm⟩

theorem remove_ok_elim {w : World} {c : TypeKey} {e : EntityId} {v : Val} {w2 : World}
    (h : remove_entity_component w c e = some (Except.ok v, w2)) :
    is_entity_valid w e = true
    ∧ ∃ cs idx cs2, get_component_storage w c = some cs
        ∧ alGet cs.entity_component_map e = some idx
        ∧ remove_from_storage cs e idx = some (v, cs2)
        ∧ w2 = set_component_storage w c cs2 := by
  unfold remove_entity_component at h
  split at h
  · simp [Prod.ext_iff] at h
  · next hval =>
    refine ⟨by simpa using hval, ?_⟩
    split at h
    · simp [Prod.ext_iff] at h
    · next cs hcs =>
      split at h
      · simp [Prod.ext_iff] at h
      · next idx hg =>
        split at h
        · exact absurd h (by simp)
        · next v2 cs2 hr =>
          simp only [Option.some.injEq, Prod.mk.injEq, Except.ok.injEq] at h
          exact ⟨cs, idx, cs2, hcs, hg, by rw [hr, h.1], h.2.symm⟩

theorem map_fst_eq_some {α β : Type} {o : Option (α × β)} {a : α}
    (h : o.map Prod.fst = some a) : ∃ b, o = some (a, b) := by
  match o with
  | none => simp at h
  | some q =>
    simp at h
    exact ⟨q.2, by rw [← h]⟩

/-- Master lemma about one successful bucket-level swap-remove: it does not
panic, it returns the removed entity's stored value, it preserves the
sparse-set invariant, it leaves no index entry for the removed entity, and
every other entity's stored value is untouched. -/
theorem remove_from_storage_spec {cs : ComponentsStorage} {e : EntityId} {idx : Nat}
    (hinv : StorageInv cs) (hg : alGet cs.entity_component_map e = some idx) :
    ∃ v cs2, remove_from_storage cs e idx = some (v, cs2)
      ∧ (cs.component_vec.get? idx).map Prod.snd = some v
      ∧ StorageInv cs2
      ∧ alGet cs2.entity_component_map e = none
      ∧ (∀ e2, e2 ≠ e → storedVal cs2 e2 = storedVal cs e2) := by
  obtain ⟨d, hvec⟩ := storageInv_map_to_vec hinv hg
  have hlen0 : idx < cs.component_vec.length := by
    by_contra hh
    rw [List.get?_len_le (Nat.le_of_not_lt hh)] at hvec
    exact Option.noConfusion hvec
  have hpos : 0 < cs.component_vec.length := Nat.lt_of_le_of_lt (Nat.zero_le _) hlen0
  have hsub : cs.component_vec.length - 1 < cs.component_vec.length :=
    Nat.sub_lt hpos Nat.one_pos
  have hlastsome := List.get?_eq_get hsub
  set last := cs.component_vec.get ⟨cs.component_vec.length - 1, hsub⟩ with hlastdef
  have hlast : cs.component_vec.getLast? = some last := by
    rw [List.getLast?_eq_get?]
    exact hlastsome
  have hlastmap : alGet cs.entity_component_map last.1 = some (cs.component_vec.length - 1) :=
    storageInv_vec_to_map hinv hlastsome
  have hdrop_len : cs.component_vec.dropLast.length = cs.component_vec.length - 1 :=
    List.length_dropLast _
  have hnodup := hinv.1
  by_cases hidx : idx = cs.component_vec.dropLast.length
  · -- Case A: the entity's entry is the last dense slot; the pop removes it.
    have hidx1 : idx = cs.component_vec.length - 1 := by rw [hidx, hdrop_len]
    have hlast_e : last = (e, d) := by
      have : cs.component_vec.get? idx = some last := by rw [hidx1]; exact hlastsome
      rw [hvec] at this
      exact (Option.some.inj this).symm
    refine ⟨last.2, ⟨cs.component_vec.dropLast, alRemove cs.entity_component_map e⟩, ?_, ?_, ?_, ?_, ?_⟩
    · unfold remove_from_storage
      rw [hlast]
      simp only [if_pos hidx]
    · rw [hvec, hlast_e]
      simp
    · refine ⟨keysNodup_alRemove _ _ hnodup, ?_, ?_⟩
      · intro p hp
        have hpmem : p ∈ cs.entity_component_map := mem_alRemove _ _ _ hp
        have hp1 : (cs.component_vec.get? p.2).map Prod.fst = some p.1 := hinv.2.1 p hpmem
        have hp1e : p.1 ≠ e := by
          intro hh
          have h2 := alGet_of_mem_nodup _ p (keysNodup_alRemove _ _ hnodup) hp
          rw [hh, alGet_alRemove_self _ _ hnodup] at h2
          exact Option.noConfusion h2
        have hp2ne : p.2 ≠ idx := by
          intro hh
          rw [hh, hvec] at hp1
          simp at hp1
          exact hp1e hp1.symm
        obtain ⟨b, hb⟩ := map_fst_eq_some hp1
        have hp2lt : p.2 < cs.component_vec.length := by
          by_contra hh
          rw [List.get?_len_le (Nat.le_of_not_lt hh)] at hb
          exact Option.noConfusion hb
        have hp2lt1 : p.2 < cs.component_vec.length - 1 :=
          Nat.lt_of_le_of_ne (Nat.le_sub_one_of_lt hp2lt) (hidx1 ▸ hp2ne)
        rw [get?_dropLast _ _ hp2lt1]
        exact hp1
      · intro i hi
        have hi0 : i < cs.component_vec.length - 1 := by rwa [hdrop_len] at hi
        have hi1 : i < cs.component_vec.length :=
          Nat.lt_of_lt_of_le hi0 (Nat.sub_le _ _)
        have hveq : cs.component_vec.dropLast.get? i = cs.component_vec.get? i :=
          get?_dropLast _ _ hi0
        have hq := List.get?_eq_get hi1
        have hmap := storageInv_vec_to_map hinv hq
        have hqe : (cs.component_vec.get ⟨i, hi1⟩).1 ≠ e := by
          intro hh
          rw [hh, hg] at hmap
          have hiidx : i = idx := (Option.some.inj hmap).symm
          rw [hiidx, hidx1] at hi0
          exact Nat.lt_irrefl _ hi0
        simp only [hveq, hq, Option.some_bind]
        rw [alGet_alRemove_ne _ _ _ hqe]
        exact hmap
    · exact alGet_alRemove_self _ _ hnodup
    · intro e2 hne2
      unfold storedVal
      simp only [alGet_alRemove_ne _ _ _ hne2]
      cases hq : alGet cs.entity_component_map e2 with
      | none => simp
      | some i =>
        obtain ⟨d2, hd2⟩ := storageInv_map_to_vec hinv hq
        have hine : i ≠ idx := by
          intro hh
          rw [hh, hvec] at hd2
          exact hne2 (Prod.mk.inj (Option.some.inj hd2)).1.symm
        have hilt : i < cs.component_vec.length := by
          by_contra hh
          rw [List.get?_len_le (Nat.le_of_not_lt hh)] at hd2
          exact Option.noConfusion hd2
        have hilt1 : i < cs.component_vec.length - 1 :=
          Nat.lt_of_le_of_ne (Nat.le_sub_one_of_lt hilt) (hidx1 ▸ hine)
        simp only [Option.some_bind, get?_dropLast _ _ hilt1]
  · -- Case B: the entity sits in an earlier slot; the popped last entry
    -- replaces it and its index entry is redirected.
    have hidxne : idx ≠ cs.component_vec.length - 1 := by rwa [hdrop_len] at hidx
    have hidxlt : idx < cs.component_vec.length - 1 :=
      Nat.lt_of_le_of_ne (Nat.le_sub_one_of_lt hlen0) hidxne
    have hv1 : cs.component_vec.dropLast.get? idx = some (e, d) := by
      rw [get?_dropLast _ _ hidxlt]
      exact hvec
    have hlaste : last.1 ≠ e := by
      intro hh
      rw [hh, hg] at hlastmap
      have h3 : idx = cs.component_vec.length - 1 := Option.some.inj hlastmap
      exact hidxne h3
    have hnod1 : keysNodup (alRemove cs.entity_component_map e) :=
      keysNodup_alRemove _ _ hnodup
    have hnod2 : keysNodup (alUpdate (alRemove cs.entity_component_map e) last.1 idx) :=
      keysNodup_alUpdate _ _ _ hnod1
    have hnod3 :
        keysNodup (alRemove (alUpdate (alRemove cs.entity_component_map e) last.1 idx) e) :=
      keysNodup_alRemove _ _ hnod2
    have hmre :
        alGet (alRemove (alUpdate (alRemove cs.entity_component_map e) last.1 idx) e) e
          = none :=
      alGet_alRemove_self _ _ hnod2
    have hmrlast :
        alGet (alRemove (alUpdate (alRemove cs.entity_component_map e) last.1 idx) e) last.1
          = some idx := by
      rw [alGet_alRemove_ne _ _ _ hlaste, alGet_alUpdate_self,
        alGet_alRemove_ne _ _ _ hlaste, hlastmap]
      rfl
    have hmrother : ∀ k, k ≠ e → k ≠ last.1 →
        alGet (alRemove (alUpdate (alRemove cs.entity_component_map e) last.1 idx) e) k
          = alGet cs.entity_component_map k := by
      intro k hke hkl
      rw [alGet_alRemove_ne _ _ _ hke, alGet_alUpdate_ne _ _ _ _ hkl,
        alGet_alRemove_ne _ _ _ hke]
    have hvec2len : (cs.component_vec.dropLast.set idx last).length
        = cs.component_vec.length - 1 := by
      rw [List.length_set, hdrop_len]
    have hvec2idx : (cs.component_vec.dropLast.set idx last).get? idx = some last := by
      rw [List.get?_set_eq, hv1]
      rfl
    have hvec2ne : ∀ i, i ≠ idx →
        (cs.component_vec.dropLast.set idx last).get? i
          = cs.component_vec.dropLast.get? i := by
      intro i hi
      exact List.get?_set_ne _ _ (fun hh => hi hh.symm)
    refine ⟨d,
      ⟨cs.component_vec.dropLast.set idx last,
        alRemove (alUpdate (alRemove cs.entity_component_map e) last.1 idx) e⟩,
      ?_, ?_, ?_, ?_, ?_⟩
    · unfold remove_from_storage
      rw [hlast]
      simp only [if_neg hidx, hv1]
    · rw [hvec]
      simp
    · refine ⟨hnod3, ?_, ?_⟩
      · intro p hp
        have hpget := alGet_of_mem_nodup _ p hnod3 hp
        by_cases hp1l : p.1 = last.1
        · rw [hp1l, hmrlast] at hpget
          have hp2 : p.2 = idx := (Option.some.inj hpget).symm
          rw [hp2, hvec2idx, hp1l]
          rfl
        · have hp1e : p.1 ≠ e := by
            intro hh
            rw [hh, hmre] at hpget
            exact Option.noConfusion hpget
          have hpm : alGet cs.entity_component_map p.1 = some p.2 := by
            rw [← hmrother p.1 hp1e hp1l]
            exact hpget
          obtain ⟨d3, hd3⟩ := storageInv_map_to_vec hinv hpm
          have hp2len : p.2 < cs.component_vec.length := by
            by_contra hh
            rw [List.get?_len_le (Nat.le_of_not_lt hh)] at hd3
            exact Option.noConfusion hd3
          have hp2nelast : p.2 ≠ cs.component_vec.length - 1 := by
            intro hh
            rw [hh, hlastsome] at hd3
            have hl2 : last = (p.1, d3) := Option.some.inj hd3
            exact hp1l (by rw [hl2])
          have hp2lt1 : p.2 < cs.component_vec.length - 1 :=
            Nat.lt_of_le_of_ne (Nat.le_sub_one_of_lt hp2len) hp2nelast
          have hp2neidx : p.2 ≠ idx := by
            intro hh
            rw [hh, hvec] at hd3
            exact hp1e (Prod.mk.inj (Option.some.inj hd3)).1.symm
          rw [hvec2ne p.2 hp2neidx, get?_dropLast _ _ hp2lt1, hd3]
          rfl
      · intro i hi
        have hi1 : i < cs.component_vec.length - 1 := by rwa [hvec2len] at hi
        by_cases hii : i = idx
        · simp only [hii, hvec2idx, Option.some_bind, hmrlast]
        · have hi2 : i < cs.component_vec.length :=
            Nat.lt_of_lt_of_le hi1 (Nat.sub_le _ _)
          have hvi : (cs.component_vec.dropLast.set idx last).get? i
              = cs.component_vec.get? i := by
            rw [hvec2ne i hii, get?_dropLast _ _ hi1]
          have hq := List.get?_eq_get hi2
          have hmap2 := storageInv_vec_to_map hinv hq
          have hqe : (cs.component_vec.get ⟨i, hi2⟩).1 ≠ e := by
            intro hh
            rw [hh, hg] at hmap2
            exact hii (Option.some.inj hmap2).symm
          have hql : (cs.component_vec.get ⟨i, hi2⟩).1 ≠ last.1 := by
            intro hh
            rw [hh, hlastmap] at hmap2
            have : cs.component_vec.length - 1 = i := Option.some.inj hmap2
            rw [← this] at hi1
            exact Nat.lt_irrefl _ hi1
          rw [hvi, hq]
          simp only [Option.some_bind]
          rw [hmrother _ hqe hql]
          exact hmap2
    · exact hmre
    · intro e2 hne2
      unfold storedVal
      by_cases he2l : e2 = last.1
      · rw [he2l, hmrlast, hlastmap]
        simp only [Option.some_bind]
        rw [hvec2idx, hlastsome]
      · rw [hmrother e2 hne2 he2l]
        cases hq2 : alGet cs.entity_component_map e2 with
        | none => rfl
        | some i =>
          obtain ⟨d2, hd2⟩ := storageInv_map_to_vec hinv hq2
          have hine : i ≠ idx := by
            intro hh
            rw [hh, hvec] at hd2
            exact hne2 (Prod.mk.inj (Option.some.inj hd2)).1.symm
          have hilast : i ≠ cs.component_vec.length - 1 := by
            intro hh
            rw [hh, hlastsome] at hd2
            exact he2l (by rw [Option.some.inj hd2])
          have hilt : i < cs.component_vec.length := by
            by_contra hh
            rw [List.get?_len_le (Nat.le_of_not_lt hh)] at hd2
            exact Option.noConfusion hd2
          have hilt1 : i < cs.component_vec.length - 1 :=
            Nat.lt_of_le_of_ne (Nat.le_sub_one_of_lt hilt) hilast
          simp only [Option.some_bind]
          rw [hvec2ne i hine, get?_dropLast _ _ hilt1]

/-! ### World-level preservation lemmas -/

theorem storageInv_add {cs : ComponentsStorage} {e : EntityId} (v : Val)
    (hinv : StorageInv cs) (he : alGet cs.entity_component_map e = none) :
    StorageInv
      { component_vec := cs.component_vec ++ [(e, v)]
        entity_component_map :=
          alInsert cs.entity_component_map e cs.component_vec.length } := by
  refine ⟨keysNodup_alInsert _ _ _ hinv.1, ?_, ?_⟩
  · intro p hp
    rcases mem_alInsert _ _ _ _ hp with h1 | h1
    · have hp1 := hinv.2.1 p h1
      obtain ⟨b, hb⟩ := map_fst_eq_some hp1
      have hlt : p.2 < cs.component_vec.length := by
        by_contra hh
        rw [List.get?_len_le (Nat.le_of_not_lt hh)] at hb
        exact Option.noConfusion hb
      simp only [List.get?_append hlt]
      exact hp1
    · subst h1
      simp only [List.get?_concat_length]
      rfl
  · intro i hi
    have hlen : (cs.component_vec ++ [(e, v)]).length = cs.component_vec.length + 1 := by
      simp
    rw [hlen] at hi
    by_cases hie : i = cs.component_vec.length
    · subst hie
      simp only [List.get?_concat_length, Option.some_bind, alGet_alInsert_self]
    · have hlt : i < cs.component_vec.length := Nat.lt_of_le_of_ne (Nat.le_of_lt_succ hi) hie
      have hq := List.get?_eq_get hlt
      have hmap := storageInv_vec_to_map hinv hq
      have hqe : (cs.component_vec.get ⟨i, hlt⟩).1 ≠ e := by
        intro hh
        rw [hh, he] at hmap
        exact Option.noConfusion hmap
      rw [List.get?_append hlt, hq]
      simp only [Option.some_bind]
      rw [alGet_alInsert_ne _ _ _ _ hqe]
      exact hmap

theorem worldInv_add {w : World} (c : TypeKey) (e : EntityId) (v : Val) (hw : WorldInv w) :
    WorldInv (add_entity_component w c e v).2 := by
  unfold add_entity_component
  split
  · exact hw
  · split
    · exact worldInv_ensure c hw
    · next cs hcs =>
      split
      · exact worldInv_ensure c hw
      · next hdup =>
        exact worldInv_set_component_storage (worldInv_ensure c hw)
          (storageInv_add v (worldInv_storage (worldInv_ensure c hw) hcs)
            (Option.not_isSome_iff_eq_none.mp hdup))

theorem get_mut_world_eq {w : World} {c : TypeKey} {e : EntityId} {r : Except Error Val}
    {w2 : World} (h : get_entity_component_mut w c e = some (r, w2)) : w2 = w := by
  unfold get_entity_component_mut at h
  split at h
  · exact ((Prod.mk.inj (Option.some.inj h)).2).symm
  · split at h
    · exact ((Prod.mk.inj (Option.some.inj h)).2).symm
    · split at h
      · exact ((Prod.mk.inj (Option.some.inj h)).2).symm
      · split at h
        · exact Option.noConfusion h
        · exact ((Prod.mk.inj (Option.some.inj h)).2).symm

theorem worldInv_remove {w : World} {c : TypeKey} {e : EntityId} {r : Except Error Val}
    {w2 : World} (hw : WorldInv w)
    (h : remove_entity_component w c e = some (r, w2)) : WorldInv w2 := by
  unfold remove_entity_component at h
  split at h
  · rw [((Prod.mk.inj (Option.some.inj h)).2).symm]
    exact hw
  · split at h
    · rw [((Prod.mk.inj (Option.some.inj h)).2).symm]
      exact hw
    · next cs hcs =>
      split at h
      · rw [((Prod.mk.inj (Option.some.inj h)).2).symm]
        exact hw
      · next idx hg =>
        split at h
        · exact Option.noConfusion h
        · next v cs2 hr =>
          obtain ⟨v2, cs3, hr2, _, hinv2, _, _⟩ :=
            remove_from_storage_spec (worldInv_storage hw hcs) hg
          rw [hr] at hr2
          have hcs23 : cs3 = cs2 := (Prod.mk.inj (Option.some.inj hr2)).2.symm
          rw [((Prod.mk.inj (Option.some.inj h)).2).symm]
          exact worldInv_set_component_storage hw (hcs23 ▸ hinv2)

theorem worldInv_of_reachable {w : World} (h : Reachable w) : WorldInv w := by
  induction h with
  | new => exact worldInv_new
  | create _ _ ih => exact worldInv_create ih
  | ensure _ c _ ih => exact worldInv_ensure c ih
  | add _ c e v _ ih => exact worldInv_add c e v ih
  | getMut _ _ _ _ _ _ heq ih => rw [get_mut_world_eq heq]; exact ih
  | remove _ _ _ _ _ _ heq ih => exact worldInv_remove ih heq

/-! ### Bridges between the public operations and `storedVal` -/

theorem get_mut_eq_get (w : World) (c : TypeKey) (e : EntityId) :
    get_entity_component_mut w c e
      = (get_entity_component w c e).map (fun r => (r, w)) := by
  unfold get_entity_component get_entity_component_mut
  by_cases hval : is_entity_valid w e = false
  · simp [hval]
  · simp only [if_neg hval]
    cases hcs : get_component_storage w c with
    | none => rfl
    | some cs =>
      cases hga : alGet cs.entity_component_map e with
      | none => simp [hga]
      | some i =>
        simp only [hga]
        cases hq : cs.component_vec.get? i with
        | none => rfl
        | some q => rfl

theorem ensure_of_present {w : World} {c : TypeKey} {sb : StoredBucket}
    (h : alGet w.component_storage_vecs c = some sb) :
    ensure_component_registered w c = (true, w) := by
  unfold ensure_component_registered
  rw [h]
  rfl

theorem get_ok_of_storedVal {w : World} {c : TypeKey} {e : EntityId}
    {cs : ComponentsStorage} {v : Val} (hval : is_entity_valid w e = true)
    (hcs : get_component_storage w c = some cs) (hsv : storedVal cs e = some v) :
    get_entity_component w c e = some (Except.ok v) := by
  unfold storedVal at hsv
  cases hga : alGet cs.entity_component_map e with
  | none => rw [hga] at hsv; simp at hsv
  | some i =>
    rw [hga] at hsv
    simp only [Option.some_bind] at hsv
    cases hq : cs.component_vec.get? i with
    | none => rw [hq] at hsv; simp at hsv
    | some q =>
      rw [hq] at hsv
      simp at hsv
      have hq2 : cs.component_vec[i]? = some q := by
        rw [← List.get?_eq_getElem?]
        exact hq
      unfold get_entity_component
      simp [hval, hcs, hga, hq2, hsv]

theorem get_ok_elim {w : World} {c : TypeKey} {e : EntityId} {v : Val}
    (h : get_entity_component w c e = some (Except.ok v)) :
    is_entity_valid w e = true
    ∧ ∃ cs, get_component_storage w c = some cs ∧ storedVal cs e = some v := by
  unfold get_entity_component at h
  split at h
  · simp at h
  · next hval =>
    refine ⟨by simpa using hval, ?_⟩
    split at h
    · simp at h
    · next cs hcs =>
      refine ⟨cs, hcs, ?_⟩
      split at h
      · simp at h
      · next i hga =>
        split at h
        · exact Option.noConfusion h
        · next q hq =>
          simp only [Option.some.injEq, Except.ok.injEq] at h
          unfold storedVal
          rw [hga]
          simp only [Option.some_bind]
          rw [hq]
          simp [h]

theorem remove_ok_of_storedVal {w : World} {c : TypeKey} {e : EntityId}
    {cs : ComponentsStorage} {v : Val} (hw : WorldInv w)
    (hval : is_entity_valid w e = true)
    (hcs : get_component_storage w c = some cs) (hsv : storedVal cs e = some v) :
    ∃ cs2, remove_entity_component w c e
        = some (Except.ok v, set_component_storage w c cs2)
      ∧ StorageInv cs2
      ∧ alGet cs2.entity_component_map e = none
      ∧ (∀ e2, e2 ≠ e → storedVal cs2 e2 = storedVal cs e2) := by
  unfold storedVal at hsv
  cases hga : alGet cs.entity_component_map e with
  | none => rw [hga] at hsv; simp at hsv
  | some idx =>
    rw [hga] at hsv
    simp only [Option.some_bind] at hsv
    obtain ⟨v2, cs2, hr, hv2, hinv2, hnone, hpres⟩ :=
      remove_from_storage_spec (worldInv_storage hw hcs) hga
    have hv2v : v2 = v := by
      rw [hv2] at hsv
      exact Option.some.inj hsv
    refine ⟨cs2, ?_, hinv2, hnone, hpres⟩
    unfold remove_entity_component
    simp [hval, hcs, hga, hr, hv2v]

/-! ### The claims -/

/-- Claim C3: entity-validity gate and error precedence. For an entity id that
is not valid in the World, `add_entity_component`, `get_entity_component`,
`get_entity_component_mut` and `remove_entity_component` all fail with
`InvalidEntityId` (leaving the World untouched), regardless of whether the
component type's bucket exists and of any bucket-level condition, so
`InvalidEntityId` takes precedence over every other error. -/
theorem invalid_entity_gate (w : World) (c : TypeKey) (e : EntityId) (v : Val)
    (h : is_entity_valid w e = false) :
    add_entity_component w c e v = (Except.error (Error.InvalidEntityId e), w)
    ∧ get_entity_component w c e = some (Except.error (Error.InvalidEntityId e))
    ∧ get_entity_component_mut w c e = some (Except.error (Error.InvalidEntityId e), w)
    ∧ remove_entity_component w c e = some (Except.error (Error.InvalidEntityId e), w) := by
  refine ⟨?_, ?_, ?_, ?_⟩ <;>
    simp [add_entity_component, get_entity_component, get_entity_component_mut,
      remove_entity_component, h]

theorem invalid_entity_gate_witness :
    is_entity_valid World.new 3 = false
    ∧ get_entity_component World.new 0 3 = some (Except.error (Error.InvalidEntityId 3)) :=
  ⟨by decide, (invalid_entity_gate World.new 0 3 0 (by decide)).2.1⟩

/-- Claim C4: world-level versus entity-level component errors. For a valid
entity, `get` / `get_mut` / `remove` of a type whose bucket was never created
fail with `InvalidWorldComponent`; once a bucket for the type exists, the same
operations on a valid entity without an entry fail with
`InvalidEntityComponent` instead. -/
theorem world_vs_entity_component_errors (w : World) (c : TypeKey) (e : EntityId)
    (hval : is_entity_valid w e = true) :
    (alGet w.component_storage_vecs c = none →
      get_entity_component w c e
          = some (Except.error (Error.InvalidWorldComponent (type_name c)))
      ∧ get_entity_component_mut w c e
          = some (Except.error (Error.InvalidWorldComponent (type_name c)), w)
      ∧ remove_entity_component w c e
          = some (Except.error (Error.InvalidWorldComponent (type_name c)), w))
    ∧ (∀ cs, get_component_storage w c = some cs →
        alGet cs.entity_component_map e = none →
        get_entity_component w c e
            = some (Except.error (Error.InvalidEntityComponent (type_name c) e))
        ∧ get_entity_component_mut w c e
            = some (Except.error (Error.InvalidEntityComponent (type_name c) e), w)
        ∧ remove_entity_component w c e
            = some (Except.error (Error.InvalidEntityComponent (type_name c) e), w)) := by
  constructor
  · intro hnone
    have hcs : get_component_storage w c = none := by
      unfold get_component_storage
      rw [hnone]
      rfl
    refine ⟨?_, ?_, ?_⟩ <;>
      simp [get_entity_component, get_entity_component_mut, remove_entity_component,
        hval, hcs]
  · intro cs hcs hga
    refine ⟨?_, ?_, ?_⟩ <;>
      simp [get_entity_component, get_entity_component_mut, remove_entity_component,
        hval, hcs, hga]

theorem world_vs_entity_component_errors_witness :
    get_entity_component wldA 0 0
      = some (Except.error (Error.InvalidWorldComponent (type_name 0)))
    ∧ get_entity_component wldAdd0 0 1
      = some (Except.error (Error.InvalidEntityComponent (type_name 0) 1)) :=
  ⟨((world_vs_entity_component_errors wldA 0 0 (by decide)).1 (by decide)).1,
   ((world_vs_entity_component_errors wldAdd0 0 1 (by decide)).2
      ⟨[(0, 5)], [(0, 0)]⟩ (by decide) (by decide)).1⟩

/-- Claim C5: round-trip. Whenever `add_entity_component` succeeds, an
immediately following `get_entity_component` succeeds with a value equal to the
one added, and `get_entity_component_mut` returns the same value (the value its
`&mut` reference points to) with the World untouched. -/
theorem add_then_get_round_trip (w : World) (c : TypeKey) (e : EntityId) (v : Val)
    (w2 : World) (h : add_entity_component w c e v = (Except.ok (), w2)) :
    get_entity_component w2 c e = some (Except.ok v)
    ∧ get_entity_component_mut w2 c e = some (Except.ok v, w2) := by
  obtain ⟨hval, cs, hcs, hnone, hw2⟩ := add_ok_elim h
  obtain ⟨sb, hsb, hst, hss⟩ := get_component_storage_eq_some.mp hcs
  have hval2 : is_entity_valid w2 e = true := by
    rw [hw2, is_entity_valid_set_storage, is_entity_valid_ensure]
    exact hval
  have hcs2 : get_component_storage w2 c
      = some { component_vec := cs.component_vec ++ [(e, v)]
               entity_component_map :=
                 alInsert cs.entity_component_map e cs.component_vec.length } := by
    rw [hw2]
    exact get_component_storage_set_self hsb _
  have hsv : storedVal
      { component_vec := cs.component_vec ++ [(e, v)]
        entity_component_map :=
          alInsert cs.entity_component_map e cs.component_vec.length } e = some v := by
    unfold storedVal
    simp only [alGet_alInsert_self, Option.some_bind]
    rw [List.get?_concat_length]
    rfl
  have hget := get_ok_of_storedVal hval2 hcs2 hsv
  refine ⟨hget, ?_⟩
  rw [get_mut_eq_get, hget]
  rfl

theorem add_then_get_round_trip_witness :
    get_entity_component wldAdd0 0 0 = some (Except.ok 5)
    ∧ get_entity_component_mut wldAdd0 0 0 = some (Except.ok 5, wldAdd0) :=
  add_then_get_round_trip wldAB 0 0 5 wldAdd0 (by decide)

/-- Claim C6: single owner per (entity, type). After a successful add of a
component of type `c` to entity `e`, a second add of the same type fails with
`ComponentAlreadyAdded` and returns the World exactly as it was after the
first add (every bucket, the dense vector and index map included, unchanged). -/
theorem second_add_fails_with_component_already_added (w : World) (c : TypeKey)
    (e : EntityId) (v v2 : Val) (w2 : World)
    (h : add_entity_component w c e v = (Except.ok (), w2)) :
    add_entity_component w2 c e v2
      = (Except.error (Error.ComponentAlreadyAdded (type_name c) e), w2) := by
  obtain ⟨hval, cs, hcs, hnone, hw2⟩ := add_ok_elim h
  obtain ⟨sb, hsb, hst, hss⟩ := get_component_storage_eq_some.mp hcs
  have hval2 : is_entity_valid w2 e = true := by
    rw [hw2, is_entity_valid_set_storage, is_entity_valid_ensure]
    exact hval
  have hcs2 : get_component_storage w2 c
      = some { component_vec := cs.component_vec ++ [(e, v)]
               entity_component_map :=
                 alInsert cs.entity_component_map e cs.component_vec.length } := by
    rw [hw2]
    exact get_component_storage_set_self hsb _
  obtain ⟨sb2, hsb2, hst2, hss2⟩ := get_component_storage_eq_some.mp hcs2
  have hens : ensure_component_registered w2 c = (true, w2) := ensure_of_present hsb2
  have hga2 : alGet (alInsert cs.entity_component_map e cs.component_vec.length) e
      = some cs.component_vec.length := alGet_alInsert_self _ _ _
  unfold add_entity_component
  simp [hval2, hens, hcs2, hga2]

theorem second_add_fails_with_component_already_added_witness :
    add_entity_component wldAdd0 0 0 9
      = (Except.error (Error.ComponentAlreadyAdded (type_name 0) 0), wldAdd0) :=
  second_add_fails_with_component_already_added wldAB 0 0 5 9 wldAdd0 (by decide)

/-- Claim C1: swap-remove does not corrupt other entities. From any World
satisfying the bucket invariants (which covers every state reachable by adding
distinct entities, in particular the `a`, `b`, `c` scenario), after a
successful `remove_entity_component` for `e`, every other entity `e2` that had
a component in the bucket still gets exactly its old value from
`get_entity_component`, and removing it next returns that same originally
added value — so removing the remaining entities in any order yields each
entity's own value (apply this theorem repeatedly, invariants being preserved). -/
theorem swap_remove_does_not_corrupt_other_entities (w : World) (c : TypeKey)
    (e : EntityId) (x : Val) (w2 : World) (hw : WorldInv w)
    (hrem : remove_entity_component w c e = some (Except.ok x, w2)) :
    ∀ e2 v2, e2 ≠ e → get_entity_component w c e2 = some (Except.ok v2) →
      get_entity_component w2 c e2 = some (Except.ok v2)
      ∧ ∃ w3, remove_entity_component w2 c e2 = some (Except.ok v2, w3) := by
  intro e2 v2 hne hget
  obtain ⟨hval, cs, idx, cs2, hcs, hga, hr, hw2⟩ := remove_ok_elim hrem
  obtain ⟨v3, cs3, hr2, hv3, hinv3, hnone3, hpres3⟩ :=
    remove_from_storage_spec (worldInv_storage hw hcs) hga
  have hcs32 : cs3 = cs2 := by
    rw [hr] at hr2
    exact (Prod.mk.inj (Option.some.inj hr2)).2.symm
  obtain ⟨hval2x, cs4, hcs4, hsv4⟩ := get_ok_elim hget
  have hcs4cs : cs4 = cs := by
    rw [hcs] at hcs4
    exact (Option.some.inj hcs4).symm
  have hsv : storedVal cs e2 = some v2 := hcs4cs ▸ hsv4
  have hsv2 : storedVal cs2 e2 = some v2 := by
    rw [← hcs32, hpres3 e2 hne]
    exact hsv
  obtain ⟨sb, hsb, hst, hss⟩ := get_component_storage_eq_some.mp hcs
  have hval2 : is_entity_valid w2 e2 = true := by
    rw [hw2, is_entity_valid_set_storage]
    exact hval2x
  have hcs2w : get_component_storage w2 c = some cs2 := by
    rw [hw2]
    exact get_component_storage_set_self hsb _
  have hget2 := get_ok_of_storedVal hval2 hcs2w hsv2
  have hw2inv : WorldInv w2 := worldInv_remove hw hrem
  obtain ⟨cs5, hrem2, _, _, _⟩ := remove_ok_of_storedVal hw2inv hval2 hcs2w hsv2
  exact ⟨hget2, ⟨_, hrem2⟩⟩

theorem swap_remove_does_not_corrupt_other_entities_witness :
    get_entity_component wldRem 0 1 = some (Except.ok 7)
    ∧ ∃ w3, remove_entity_component wldRem 0 1 = some (Except.ok 7, w3) :=
  swap_remove_does_not_corrupt_other_entities wldAdd01 0 0 5 wldRem (by decide)
    (by decide) 1 7 (by decide) (by decide)

/-- Claim C2: invariant preservation. Every public operation maps a World
satisfying I1-I3 (`WorldInv`, which also carries the downcast tag condition)
to a World satisfying I1-I3 — whether it succeeds or fails —, a successful
remove leaves no stale index entry for the removed entity (the relocated
entry's correctness is I1 in the resulting invariant), and every World
reachable through the public operations satisfies the invariants
(`get_entity_component` takes the World immutably and is covered trivially). -/
theorem public_operations_preserve_invariants (w : World) (c : TypeKey)
    (e : EntityId) (v : Val) (hw : WorldInv w) :
    WorldInv (create_entity w).2
    ∧ WorldInv (ensure_component_registered w c).2
    ∧ WorldInv (add_entity_component w c e v).2
    ∧ (∀ r w2, get_entity_component_mut w c e = some (r, w2) → WorldInv w2)
    ∧ (∀ r w2, remove_entity_component w c e = some (r, w2) → WorldInv w2)
    ∧ (∀ x w2, remove_entity_component w c e = some (Except.ok x, w2) →
        ∃ cs2, get_component_storage w2 c = some cs2
          ∧ alGet cs2.entity_component_map e = none)
    ∧ (∀ w0, Reachable w0 → WorldInv w0) := by
  refine ⟨worldInv_create hw, worldInv_ensure c hw, worldInv_add c e v hw,
    ?_, ?_, ?_, ?_⟩
  · intro r w2 h
    rw [get_mut_world_eq h]
    exact hw
  · intro r w2 h
    exact worldInv_remove hw h
  · intro x w2 h
    obtain ⟨hval, cs, idx, cs2, hcs, hga, hr, hw2⟩ := remove_ok_elim h
    obtain ⟨v3, cs3, hr2, _, hinv3, hnone3, _⟩ :=
      remove_from_storage_spec (worldInv_storage hw hcs) hga
    have hcs32 : cs3 = cs2 := by
      rw [hr] at hr2
      exact (Prod.mk.inj (Option.some.inj hr2)).2.symm
    obtain ⟨sb, hsb, _, _⟩ := get_component_storage_eq_some.mp hcs
    exact ⟨cs2, by rw [hw2]; exact get_component_storage_set_self hsb _, hcs32 ▸ hnone3⟩
  · intro w0 h0
    exact worldInv_of_reachable h0

theorem public_operations_preserve_invariants_witness :
    WorldInv (add_entity_component wldAdd01 0 0 3).2 :=
  (public_operations_preserve_invariants wldAdd01 0 0 3 (by decide)).2.2.1

/-- Claim C7: remove idempotence at the interface. Right after a successful
`remove_entity_component` for `e`, the entity's index entry in the bucket is
gone, so a second immediate remove fails with `InvalidEntityComponent`
(leaving the World unchanged) and a subsequent `get_entity_component` fails
the same way — remove succeeds at most once per add cycle. -/
theorem remove_idempotence_at_interface (w : World) (c : TypeKey) (e : EntityId)
    (x : Val) (w2 : World) (hw : WorldInv w)
    (hrem : remove_entity_component w c e = some (Except.ok x, w2)) :
    (∃ cs2, get_component_storage w2 c = some cs2
        ∧ alGet cs2.entity_component_map e = none)
    ∧ remove_entity_component w2 c e
        = some (Except.error (Error.InvalidEntityComponent (type_name c) e), w2)
    ∧ get_entity_component w2 c e
        = some (Except.error (Error.InvalidEntityComponent (type_name c) e)) := by
  obtain ⟨hval, cs, idx, cs2, hcs, hga, hr, hw2⟩ := remove_ok_elim hrem
  obtain ⟨v2, cs3, hr2, _, hinv3, hnone3, _⟩ :=
    remove_from_storage_spec (worldInv_storage hw hcs) hga
  have hcs32 : cs3 = cs2 := by
    rw [hr] at hr2
    exact (Prod.mk.inj (Option.some.inj hr2)).2.symm
  have hnone2 : alGet cs2.entity_component_map e = none := hcs32 ▸ hnone3
  obtain ⟨sb, hsb, _, _⟩ := get_component_storage_eq_some.mp hcs
  have hval2 : is_entity_valid w2 e = true := by
    rw [hw2, is_entity_valid_set_storage]
    exact hval
  have hcs2w : get_component_storage w2 c = some cs2 := by
    rw [hw2]
    exact get_component_storage_set_self hsb _
  refine ⟨⟨cs2, hcs2w, hnone2⟩, ?_, ?_⟩
  · unfold remove_entity_component
    simp [hval2, hcs2w, hnone2]
  · unfold get_entity_component
    simp [hval2, hcs2w, hnone2]

theorem remove_idempotence_at_interface_witness :
    remove_entity_component wldRem 0 0
      = some (Except.error (Error.InvalidEntityComponent (type_name 0) 0), wldRem) :=
  (remove_idempotence_at_interface wldAdd01 0 0 5 wldRem (by decide) (by decide)).2.1

/-- Claim C8: no panic on reachable states. On every reachable World, `get`,
`get_mut` and `remove` never abort (the modelled panics — the `.expect` on the
pop and the two index expressions — are unreachable: the entity's presence in
the index map keeps the dense vector non-empty and the stored index in
bounds), and whenever a bucket's type key is present the stored bucket
downcasts successfully, so the internal-invariant-breach branch never runs. -/
theorem no_panic_on_reachable_states (w : World) (hr : Reachable w) (c : TypeKey)
    (e : EntityId) :
    (get_entity_component w c e).isSome = true
    ∧ (get_entity_component_mut w c e).isSome = true
    ∧ (remove_entity_component w c e).isSome = true
    ∧ (∀ sb, alGet w.component_storage_vecs c = some sb →
        get_component_storage w c = some sb.storage) := by
  have hw := worldInv_of_reachable hr
  have hget : (get_entity_component w c e).isSome = true := by
    unfold get_entity_component
    by_cases hval : is_entity_valid w e = false
    · simp [hval]
    · simp only [if_neg hval]
      cases hcs : get_component_storage w c with
      | none => rfl
      | some cs =>
        cases hga : alGet cs.entity_component_map e with
        | none => simp [hga]
        | some i =>
          obtain ⟨d, hd⟩ := storageInv_map_to_vec (worldInv_storage hw hcs) hga
          have hd2 : cs.component_vec[i]? = some (e, d) := by
            rw [← List.get?_eq_getElem?]
            exact hd
          simp [hga, hd2]
  refine ⟨hget, ?_, ?_, ?_⟩
  · rw [get_mut_eq_get]
    cases hx : get_entity_component w c e with
    | none =>
      rw [hx] at hget
      simp at hget
    | some r => rfl
  · unfold remove_entity_component
    by_cases hval : is_entity_valid w e = false
    · simp [hval]
    · simp only [if_neg hval]
      cases hcs : get_component_storage w c with
      | none => rfl
      | some cs =>
        cases hga : alGet cs.entity_component_map e with
        | none => simp [hga]
        | some idx =>
          obtain ⟨v2, cs2, hr2, _, _, _, _⟩ :=
            remove_from_storage_spec (worldInv_storage hw hcs) hga
          simp [hga, hr2]
  · intro sb hsb
    have hst : sb.stored_type = c := (hw.2 (c, sb) (mem_of_alGet _ _ _ hsb)).1
    unfold get_component_storage
    rw [hsb]
    simp [hst]

theorem no_panic_on_reachable_states_witness :
    (remove_entity_component wldAdd01 0 0).isSome = true :=
  (no_panic_on_reachable_states wldAdd01
    (Reachable.add _ 0 1 7 (Reachable.add _ 0 0 5
      (Reachable.create _ (Reachable.create _ Reachable.new)))) 0 0).2.2.1

/-- Claim C9 (code bug in the source): the spec requires the
`InvalidEntityComponent` error to carry both the component type name and the
offending entity id, rendering as
`"Component {type} was never registered to the entity {id}"`. The `Display`
arm (`src/ecs/error.rs` line 22) and every constructor
(`src/ecs/world.rs` lines 48, 69, 122) do use both fields — the rendering
below, modelled from them, matches the specified content — but the `enum
Error` declaration itself (`src/ecs/error.rs` line 7) gives the variant a
single `&'static str` field and no entity id: one payload field declared
against two used, so the module does not even type-check as written. -/
theorem invalid_entity_component_payload_mismatch (name : String) (id : EntityId) :
    Error.display (Error.InvalidEntityComponent name id)
      = "Component " ++ name ++ " was never registered to the entity " ++ toString id
    ∧ Error.display (Error.InvalidEntityId id)
      = "Entity " ++ toString id ++ " is invalid"
    ∧ Error.display (Error.InvalidWorldComponent name)
      = "Component " ++ name ++ " was never registered to any entity in the world"
    ∧ Error.display (Error.ComponentAlreadyAdded name id)
      = "Component " ++ name ++ " was already added to entity " ++ toString id
    ∧ invalidEntityComponentFieldsDeclared ≠ invalidEntityComponentFieldsUsed :=
  ⟨rfl, rfl, rfl, rfl, by decide⟩

/-- Claim C10: atomicity of every failure. Whenever a public operation returns
an error — any of the four kinds — the World is exactly the input World: no
bucket created or modified, validity set and counter untouched
(`get_entity_component` borrows the World immutably and cannot change it). In
particular a failing add never registers a bucket: the validity check precedes
bucket creation, and `ComponentAlreadyAdded` / the downcast failure can only
arise when the bucket already existed, making `ensure_component_registered` a
no-op. -/
theorem failed_operations_leave_world_unchanged (w : World) (c : TypeKey)
    (e : EntityId) (v : Val) :
    (∀ err w2, add_entity_component w c e v = (Except.error err, w2) → w2 = w)
    ∧ (∀ err w2, get_entity_component_mut w c e = some (Except.error err, w2) → w2 = w)
    ∧ (∀ err w2, remove_entity_component w c e = some (Except.error err, w2) → w2 = w) := by
  refine ⟨?_, ?_, ?_⟩
  · intro err w2 h
    unfold add_entity_component at h
    split at h
    · exact (Prod.mk.inj h).2.symm
    · split at h
      · next hcs =>
        have hw2 : w2 = (ensure_component_registered w c).2 := (Prod.mk.inj h).2.symm
        cases halg : alGet w.component_storage_vecs c with
        | some sb =>
          rw [hw2, ensure_of_present halg]
        | none =>
          exfalso
          have hens : ensure_component_registered w c
              = (false,
                  { w with
                    component_storage_vecs :=
                      alInsert w.component_storage_vecs c ⟨c, ComponentsStorage.new⟩ }) := by
            unfold ensure_component_registered
            rw [halg]
            rfl
          rw [hens] at hcs
          simp [get_component_storage, alGet_alInsert_self] at hcs
      · next cs hcs =>
        split at h
        · next hdup =>
          have hw2 : w2 = (ensure_component_registered w c).2 := (Prod.mk.inj h).2.symm
          cases halg : alGet w.component_storage_vecs c with
          | some sb =>
            rw [hw2, ensure_of_present halg]
          | none =>
            exfalso
            have hens : ensure_component_registered w c
                = (false,
                    { w with
                      component_storage_vecs :=
                        alInsert w.component_storage_vecs c ⟨c, ComponentsStorage.new⟩ }) := by
              unfold ensure_component_registered
              rw [halg]
              rfl
            rw [hens] at hcs
            have hnew : cs = ComponentsStorage.new := by
              simp [get_component_storage, alGet_alInsert_self] at hcs
              exact hcs.symm
            rw [hnew] at hdup
            simp [ComponentsStorage.new, alGet] at hdup
        · simp at h
  · intro err w2 h
    exact get_mut_world_eq h
  · intro err w2 h
    unfold remove_entity_component at h
    split at h
    · exact (Prod.mk.inj (Option.some.inj h)).2.symm
    · split at h
      · exact (Prod.mk.inj (Option.some.inj h)).2.symm
      · split at h
        · exact (Prod.mk.inj (Option.some.inj h)).2.symm
        · split at h
          · exact Option.noConfusion h
          · simp at h

theorem failed_operations_leave_world_unchanged_witness :
    remove_entity_component wldA 0 5 = some (Except.error (Error.InvalidEntityId 5), wldA)
    ∧ wldA = wldA :=
  ⟨by decide,
   (failed_operations_leave_world_unchanged wldA 0 5 0).2.2
     (Error.InvalidEntityId 5) wldA (by decide)⟩
